import Mathlib

/-!
Verification of the jobserver client library (`src/lib.rs`) against its
natural-language specification.  Strings are embedded as `List Char`;
`str::rsplit_once` is embedded as `rsplit_once`; the stateful pieces
(the `Acquired` drop glue, `from_env_ext`, the helper-thread worker loop)
are embedded as pure functions over explicit state, with the platform
engine (`imp::Client`) abstracted as a parameter since its code lives in
platform modules.
-/

set_option autoImplicit false

/-- `p.isPrefixOf`-style check: does `s` start with `p`?  Embeds the
prefix test underlying Rust's `str::rsplit_once` pattern search. -/
def listStartsWith : List Char → List Char → Bool
  | [], _ => true
  | _ :: _, [] => false
  | p :: ps, c :: cs => p == c && listStartsWith ps cs

/-- Embedding of Rust's `str::rsplit_once(sep)`: splits `s` around the
*last* occurrence of `sep`, returning `(before, after)`; `none` when `sep`
does not occur in `s`. -/
def rsplit_once (sep : List Char) : List Char → Option (List Char × List Char)
  | [] => none
  | c :: rest =>
    match rsplit_once sep rest with
    | some (pre, post) => some (c :: pre, post)
    | none =>
      if listStartsWith sep (c :: rest) then some ([], (c :: rest).drop sep.length)
      else none

/-- `sep` occurs in `s` as a (raw, contiguous) substring. -/
def occursIn (sep s : List Char) : Prop :=
  ∃ pre post, s = pre ++ sep ++ post

/-- The flag string searched first by `find_jobserver_auth`. -/
def authFlag : List Char := ("--jobserver-auth=").data

/-- The fallback flag string searched by `find_jobserver_auth`. -/
def fdsFlag : List Char := ("--jobserver-fds=").data

/-- Embedding of `find_jobserver_auth` (src/lib.rs): try
`rsplit_once` on `--jobserver-auth=` first, then on `--jobserver-fds=`,
keeping the text after the last occurrence; then `s.split(' ').next()`,
i.e. the prefix of that text before the first ASCII space (`split`
always yields at least one segment, so the `and_then` never turns a
match into `none`). -/
def find_jobserver_auth (var : List Char) : Option (List Char) :=
  (match rsplit_once authFlag var with
   | some (_, s) => some s
   | none =>
     match rsplit_once fdsFlag var with
     | some (_, s) => some s
     | none => none).bind fun s => some (s.takeWhile fun c => c != ' ')

/-- An OS string, viewed through the only operation the library applies to
it: `OsString::to_str`, which yields `some` chars exactly when the value is
valid UTF-8. -/
structure OsString where
  toStr : Option (List Char)

/-- Models `OsString::default()`: the empty (valid UTF-8) OS string. -/
def OsString.empty : OsString := ⟨some []⟩

/-- Error kinds behind `FromEnvError`.  The first three are the ones
`from_env_ext` itself produces in src/lib.rs; the remaining kinds are
modelled from the spec (§7) since the defining module `error.rs` is not
part of the sources, and stand for the errors `imp::Client::open` can
return. -/
inductive FromEnvErrorInner where
  | NoEnvVar
  | NoJobserver
  | CannotParse (detail : List Char)
  | CannotOpenPath (detail : List Char)
  | CannotOpenFd (detail : List Char)
  | NotAPipe
  | IoError (detail : List Char)

/-- Public error wrapper, mirroring `FromEnvError { inner }`. -/
structure FromEnvError where
  inner : FromEnvErrorInner

/-- A `Client` wraps a (shared) platform engine; the engine type `Imp`
abstracts `imp::Client`, whose platform modules are outside src/lib.rs. -/
structure Client (Imp : Type) where
  inner : Imp

/-- Return type of `from_env_ext`, mirroring the `FromEnv` struct. -/
structure FromEnv (Imp : Type) where
  client : Except FromEnvError (Client Imp)
  var : Option (String × OsString)

/-- Mirrors `FromEnv::new_ok`. -/
def FromEnv.new_ok {Imp : Type} (client : Client Imp) (var_name : String)
    (var_value : OsString) : FromEnv Imp :=
  { client := Except.ok client, var := some (var_name, var_value) }

/-- Mirrors `FromEnv::new_err`. -/
def FromEnv.new_err {Imp : Type} (kind : FromEnvErrorInner) (var_name : String)
    (var_value : OsString) : FromEnv Imp :=
  { client := Except.error ⟨kind⟩, var := some (var_name, var_value) }

/-- First recognized environment variable name. -/
def cargoMakeflagsVar : String := ("CARGO_MAKEFLAGS")

/-- Second recognized environment variable name. -/
def makeflagsVar : String := ("MAKEFLAGS")

/-- Third recognized environment variable name. -/
def mflagsVar : String := ("MFLAGS")

/-- The array `["CARGO_MAKEFLAGS", "MAKEFLAGS", "MFLAGS"]` scanned by
`from_env_ext`, in source order. -/
def from_env_vars : List String := [cargoMakeflagsVar, makeflagsVar, mflagsVar]

/-- Mirrors the `.iter().map(|&env| env::var_os(env).map(|var| (env, var)))
.find_map(|p| p)` chain in `from_env_ext`; the process environment is the
function `env`. -/
def findFirstVar (env : String → Option OsString) : Option (String × OsString) :=
  List.findSome? (fun name => (env name).map fun v => (name, v)) from_env_vars

/-- Embedding of `Client::from_env_ext`.  The platform engine's
`imp::Client::open` is the parameter `openImp` (its code lives in the
platform modules, not in src/lib.rs). -/
def from_env_ext {Imp : Type} (openImp : List Char → Bool → Except FromEnvErrorInner Imp)
    (check_pipe : Bool) (env : String → Option OsString) : FromEnv Imp :=
  match findFirstVar env with
  | none => FromEnv.new_err FromEnvErrorInner.NoEnvVar ("") OsString.empty
  | some (name, var_os) =>
    match var_os.toStr with
    | none =>
      FromEnv.new_err (FromEnvErrorInner.CannotParse (("not valid UTF-8").data))
        name var_os
    | some var =>
      match find_jobserver_auth var with
      | none => FromEnv.new_err FromEnvErrorInner.NoJobserver name var_os
      | some s =>
        match openImp s check_pipe with
        | Except.ok c => FromEnv.new_ok ⟨c⟩ name var_os
        | Except.error err => FromEnv.new_err err name var_os

/-- Mirrors `Client::mflags_env`:
`format!("-j --jobserver-fds={0} --jobserver-auth={0}", arg)` where `arg`
is the engine's `string_arg()`. -/
def mflags_env (arg : List Char) : List Char :=
  ("-j --jobserver-fds=").data ++ arg ++ (" --jobserver-auth=").data ++ arg

/-- The environment assignments `Client::configure` performs on the child
command, in call order.  (`inner.configure` only attaches inheritable
handles; it sets no environment variables.) -/
def configure_envs (arg : List Char) : List (String × List Char) :=
  [(cargoMakeflagsVar, mflags_env arg)]

/-- The environment assignments `Client::configure_make` performs on the
child command, in call order. -/
def configure_make_envs (arg : List Char) : List (String × List Char) :=
  [(cargoMakeflagsVar, mflags_env arg), (makeflagsVar, mflags_env arg),
    (mflagsVar, mflags_env arg)]

/-- An acquired token, mirroring the `Acquired` struct: the engine payload
`data` (on Unix, the byte read from the pipe) and the `disabled` flag.
The `client` field (the shared engine reference used by `Drop`) is passed
separately to `acquiredDrop` as the release operation. -/
structure Acquired where
  data : Nat
  disabled : Bool

/-- Token as constructed by `Client::acquire`: `disabled: false`. -/
def Acquired.ofAcquire (data : Nat) : Acquired := { data := data, disabled := false }

/-- Token as constructed by `Client::try_acquire`: `disabled: false`. -/
def Acquired.ofTryAcquire (data : Nat) : Acquired := { data := data, disabled := false }

/-- Mirrors `Acquired::drop_without_releasing`: sets `disabled` before the
token is dropped. -/
def drop_without_releasing (a : Acquired) : Acquired := { a with disabled := true }

/-- An engine I/O error (payload irrelevant to the claims). -/
structure IoErr where
  msg : List Char

/-- Embedding of `impl Drop for Acquired`: `rel` is the engine's
`client.release`.  Returns the list of release calls performed (with the
payload passed to each) and the error surfaced to the caller of `drop`;
`drop(self.client.release(Some(&self.data)))` discards the `io::Result`,
so both the `Ok` and the `Err` arm surface nothing. -/
def acquiredDrop (rel : Option Nat → Except IoErr Unit) (a : Acquired) :
    List (Option Nat) × Option IoErr :=
  if a.disabled then ([], none)
  else
    match rel (some a.data) with
    | Except.ok _ => ([some a.data], none)
    | Except.error _ => ([some a.data], none)

/-- The fields guarded by the helper thread's mutex, mirroring
`HelperInner`. -/
structure HelperInner where
  requests : Nat
  producer_done : Bool
  consumer_done : Bool

/-- Where the worker of `HelperState::for_each_request` stands between
lock interactions. -/
inductive WorkerPC where
  /-- At the top of the `while` loop, holding the lock. -/
  | loopHead
  /-- Lock released, invoking `f` (which performs the blocking acquire and
  the user callback). -/
  | callback
  /-- The loop has exited. -/
  | finished

/-- Worker state: program counter, the shared `HelperInner`, and whether
the worker currently holds the mutex. -/
structure WorkerState where
  pc : WorkerPC
  inner : HelperInner
  lockHeld : Bool

/-- What a single worker step did. -/
inductive WorkerAct where
  /-- Blocked on `cvar.wait` (the lock is released during the wait and
  re-held on return). -/
  | waited
  /-- Consumed a request and released the lock to invoke `f`. -/
  | invoked
  /-- Returned from `f` and re-acquired the lock. -/
  | reacquired
  /-- Left the loop. -/
  | exited
  /-- Already finished; no effect. -/
  | idle

/-- Small-step embedding of `HelperState::for_each_request`.  Result:
next state, the action taken, and whether `cvar.notify_one` was called in
this step. -/
def for_each_request_step : WorkerState → WorkerState × WorkerAct × Bool
  | ⟨WorkerPC.loopHead, i, _⟩ =>
    if i.producer_done then
      (⟨WorkerPC.finished, { i with consumer_done := true }, true⟩, WorkerAct.exited, true)
    else if i.requests = 0 then
      (⟨WorkerPC.loopHead, i, true⟩, WorkerAct.waited, false)
    else
      (⟨WorkerPC.callback, { i with requests := i.requests - 1 }, false⟩,
        WorkerAct.invoked, false)
  | ⟨WorkerPC.callback, i, _⟩ => (⟨WorkerPC.loopHead, i, true⟩, WorkerAct.reacquired, false)
  | ⟨WorkerPC.finished, i, l⟩ => (⟨WorkerPC.finished, i, l⟩, WorkerAct.idle, false)

/-- Embedding of `HelperThread::request_token`: increments `requests`
under the lock; the `Bool` records the `cvar.notify_one` call. -/
def request_token (i : HelperInner) : HelperInner × Bool :=
  ({ i with requests := i.requests + 1 }, true)

theorem listStartsWith_iff (p : List Char) : ∀ s : List Char,
    (listStartsWith p s = true ↔ ∃ t, s = p ++ t) := by
  induction p with
  | nil =>
    intro s
    simp [listStartsWith]
  | cons a ps ih =>
    intro s
    cases s with
    | nil =>
      simp [listStartsWith]
    | cons b bs =>
      simp only [listStartsWith, Bool.and_eq_true, beq_iff_eq, ih bs,
        List.cons_append, List.cons.injEq]
      constructor
      · rintro ⟨hab, t, ht⟩
        exact ⟨t, hab.symm, ht⟩
      · rintro ⟨t, hab, ht⟩
        exact ⟨hab.symm, t, ht⟩

theorem rsplit_once_sound (sep : List Char) : ∀ (s pre post : List Char),
    rsplit_once sep s = some (pre, post) → s = pre ++ sep ++ post := by
  intro s
  induction s with
  | nil =>
    intro pre post h
    simp [rsplit_once] at h
  | cons c rest ih =>
    intro pre post h
    simp only [rsplit_once] at h
    cases hr : rsplit_once sep rest with
    | some pr =>
      obtain ⟨pre', post'⟩ := pr
      rw [hr] at h
      simp only [Option.some.injEq, Prod.mk.injEq] at h
      obtain ⟨hpre, hpost⟩ := h
      subst hpre hpost
      simpa using congrArg (c :: ·) (ih pre' post' hr)
    | none =>
      rw [hr] at h
      by_cases hs : listStartsWith sep (c :: rest) = true
      · rw [if_pos hs] at h
        simp only [Option.some.injEq, Prod.mk.injEq] at h
        obtain ⟨hpre, hpost⟩ := h
        obtain ⟨t, ht⟩ := (listStartsWith_iff sep (c :: rest)).mp hs
        subst hpre
        rw [ht, List.drop_left] at hpost
        subst hpost
        simpa using ht
      · rw [if_neg hs] at h
        exact absurd h (by simp)

theorem rsplit_once_none (sep : List Char) (hsep : sep ≠ []) :
    ∀ s : List Char, rsplit_once sep s = none → ¬ occursIn sep s := by
  intro s
  induction s with
  | nil =>
    intro _ hocc
    obtain ⟨pre, post, hsplit⟩ := hocc
    have := hsplit.symm
    simp only [List.append_assoc, List.append_eq_nil] at this
    exact hsep this.2.1
  | cons c rest ih =>
    intro h hocc
    simp only [rsplit_once] at h
    cases hr : rsplit_once sep rest with
    | some pr =>
      rw [hr] at h
      obtain ⟨pre', post'⟩ := pr
      exact absurd h (by simp)
    | none =>
      rw [hr] at h
      by_cases hs : listStartsWith sep (c :: rest) = true
      · rw [if_pos hs] at h
        exact absurd h (by simp)
      · obtain ⟨pre, post, hsplit⟩ := hocc
        cases pre with
        | nil =>
          refine hs ((listStartsWith_iff sep (c :: rest)).mpr ⟨post, ?_⟩)
          simpa using hsplit
        | cons p ps =>
          simp only [List.cons_append, List.cons.injEq] at hsplit
          exact ih hr ⟨ps, post, hsplit.2⟩

theorem rsplit_once_last (sep : List Char) (hsep : sep ≠ []) :
    ∀ (s pre post : List Char), rsplit_once sep s = some (pre, post) →
      ¬ occursIn sep ((sep ++ post).drop 1) := by
  intro s
  induction s with
  | nil =>
    intro pre post h
    simp [rsplit_once] at h
  | cons c rest ih =>
    intro pre post h
    simp only [rsplit_once] at h
    cases hr : rsplit_once sep rest with
    | some pr =>
      obtain ⟨pre', post'⟩ := pr
      rw [hr] at h
      simp only [Option.some.injEq, Prod.mk.injEq] at h
      obtain ⟨hpre, hpost⟩ := h
      rw [← hpost]
      exact ih pre' post' hr
    | none =>
      rw [hr] at h
      by_cases hs : listStartsWith sep (c :: rest) = true
      · rw [if_pos hs] at h
        simp only [Option.some.injEq, Prod.mk.injEq] at h
        obtain ⟨hpre, hpost⟩ := h
        obtain ⟨t, ht⟩ := (listStartsWith_iff sep (c :: rest)).mp hs
        have hpost' : post = t := by
          rw [ht, List.drop_left] at hpost
          exact hpost.symm
        subst hpost'
        rw [← ht]
        simpa using rsplit_once_none sep hsep rest hr
      · rw [if_neg hs] at h
        exact absurd h (by simp)

theorem rsplit_once_of_occurs (sep : List Char) (hsep : sep ≠ [])
    {s : List Char} (h : occursIn sep s) :
    ∃ pre post, rsplit_once sep s = some (pre, post) := by
  cases hr : rsplit_once sep s with
  | none => exact absurd h (rsplit_once_none sep hsep s hr)
  | some pr =>
    obtain ⟨a, b⟩ := pr
    exact ⟨a, b, rfl⟩

theorem rsplit_once_none_of_not_occurs (sep : List Char)
    {s : List Char} (h : ¬ occursIn sep s) : rsplit_once sep s = none := by
  cases hr : rsplit_once sep s with
  | none => rfl
  | some pr =>
    exact absurd ⟨pr.1, pr.2, rsplit_once_sound sep s pr.1 pr.2 (by rw [hr])⟩ h

theorem takeWhile_space_spec (l : List Char) :
    (∀ c ∈ l.takeWhile (fun c => c != ' '), c ≠ ' ') ∧
      (l = l.takeWhile (fun c => c != ' ') ∨
        ∃ rest, l = l.takeWhile (fun c => c != ' ') ++ ' ' :: rest) := by
  induction l with
  | nil => exact ⟨by simp, Or.inl rfl⟩
  | cons c t ih =>
    by_cases hc : c = ' '
    · subst hc
      refine ⟨by simp [List.takeWhile_cons], Or.inr ⟨t, ?_⟩⟩
      simp [List.takeWhile_cons]
    · have hb : (c != ' ') = true := by simpa using hc
      constructor
      · intro d hd
        rw [List.takeWhile_cons, if_pos hb] at hd
        rcases List.mem_cons.mp hd with h | h
        · exact h ▸ hc
        · exact ih.1 d h
      · rw [List.takeWhile_cons, if_pos hb]
        rcases ih.2 with h | ⟨rest, hrest⟩
        · exact Or.inl (by rw [← h])
        · exact Or.inr ⟨rest, by rw [List.cons_append, ← hrest]⟩

/-- C1: `find_jobserver_auth` returns the value of the *last*
`--jobserver-auth=` occurrence whenever one exists (every
`--jobserver-fds=` occurrence being irrelevant in that case); only with no
`--jobserver-auth=` occurrence does it return the value of the last
`--jobserver-fds=` occurrence; with neither present it returns `none`.
"Last occurrence at `(pre, post)`" is expressed by: the string splits as
`pre ++ flag ++ post` and the flag does not occur again starting strictly
later, i.e. not in `(flag ++ post).drop 1`. -/
theorem find_jobserver_auth_precedence (var : List Char) :
    (occursIn authFlag var →
      ∃ pre post, var = pre ++ authFlag ++ post ∧
        ¬ occursIn authFlag ((authFlag ++ post).drop 1) ∧
        find_jobserver_auth var = some (post.takeWhile fun c => c != ' ')) ∧
    (¬ occursIn authFlag var → occursIn fdsFlag var →
      ∃ pre post, var = pre ++ fdsFlag ++ post ∧
        ¬ occursIn fdsFlag ((fdsFlag ++ post).drop 1) ∧
        find_jobserver_auth var = some (post.takeWhile fun c => c != ' ')) ∧
    (¬ occursIn authFlag var → ¬ occursIn fdsFlag var →
      find_jobserver_auth var = none) := by
  have hauth : authFlag ≠ [] := by decide
  have hfds : fdsFlag ≠ [] := by decide
  refine ⟨?_, ?_, ?_⟩
  · intro hocc
    obtain ⟨pre, post, hr⟩ := rsplit_once_of_occurs authFlag hauth hocc
    exact ⟨pre, post, rsplit_once_sound authFlag var pre post hr,
      rsplit_once_last authFlag hauth var pre post hr,
      by simp [find_jobserver_auth, hr, Option.bind]⟩
  · intro hnauth hocc
    have ha : rsplit_once authFlag var = none :=
      rsplit_once_none_of_not_occurs authFlag hnauth
    obtain ⟨pre, post, hr⟩ := rsplit_once_of_occurs fdsFlag hfds hocc
    exact ⟨pre, post, rsplit_once_sound fdsFlag var pre post hr,
      rsplit_once_last fdsFlag hfds var pre post hr,
      by simp [find_jobserver_auth, ha, hr, Option.bind]⟩
  · intro hnauth hnfds
    have ha : rsplit_once authFlag var = none :=
      rsplit_once_none_of_not_occurs authFlag hnauth
    have hf : rsplit_once fdsFlag var = none :=
      rsplit_once_none_of_not_occurs fdsFlag hnfds
    simp [find_jobserver_auth, ha, hf, Option.bind]

theorem find_jobserver_auth_precedence_witness :
    occursIn authFlag (authFlag ++ [Char.ofNat 98]) ∧
      ∃ pre post, authFlag ++ [Char.ofNat 98] = pre ++ authFlag ++ post ∧
        ¬ occursIn authFlag ((authFlag ++ post).drop 1) ∧
        find_jobserver_auth (authFlag ++ [Char.ofNat 98]) =
          some (post.takeWhile fun c => c != ' ') :=
  ⟨⟨[], [Char.ofNat 98], rfl⟩,
    (find_jobserver_auth_precedence (authFlag ++ [Char.ofNat 98])).1
      ⟨[], [Char.ofNat 98], rfl⟩⟩

/-- C2: whenever `find_jobserver_auth` matches, the returned value is the
text from just after the `=` of a flag occurrence up to (not including)
the next ASCII space, or to the end of the string; a flag occurrence
without `=` is never a match (only the flag strings that include `=` are
searched, and on inputs without them the result is `none`); an occurrence
whose `=` is followed by a space or by the end of the string yields
`some ""`, not `none`. -/
theorem find_jobserver_auth_value_extent :
    (∀ var v, find_jobserver_auth var = some v →
      ∃ flag pre post, (flag = authFlag ∨ flag = fdsFlag) ∧
        var = pre ++ flag ++ post ∧
        v = post.takeWhile (fun c => c != ' ') ∧
        (∀ c ∈ v, c ≠ ' ') ∧
        (post = v ∨ ∃ rest, post = v ++ ' ' :: rest)) ∧
    (∀ var, occursIn (("--jobserver-auth").data) var → ¬ occursIn authFlag var →
      ¬ occursIn fdsFlag var → find_jobserver_auth var = none) ∧
    find_jobserver_auth (("--jobserver-auth").data) = none ∧
    find_jobserver_auth (("--jobserver-fds").data) = none ∧
    find_jobserver_auth authFlag = some [] ∧
    find_jobserver_auth (authFlag ++ ' ' :: ("-j2").data) = some [] := by
  refine ⟨?_, ?_, by decide, by decide, by decide, by decide⟩
  · intro var v hv
    simp only [find_jobserver_auth] at hv
    cases ha : rsplit_once authFlag var with
    | some pr =>
      obtain ⟨pre, post⟩ := pr
      rw [ha] at hv
      simp only [Option.bind, Option.some.injEq] at hv
      refine ⟨authFlag, pre, post, Or.inl rfl,
        rsplit_once_sound authFlag var pre post ha, hv.symm, ?_, ?_⟩
      · rw [← hv]
        exact (takeWhile_space_spec post).1
      · rw [← hv]
        exact (takeWhile_space_spec post).2
    | none =>
      rw [ha] at hv
      cases hf : rsplit_once fdsFlag var with
      | some pr =>
        obtain ⟨pre, post⟩ := pr
        rw [hf] at hv
        simp only [Option.bind, Option.some.injEq] at hv
        refine ⟨fdsFlag, pre, post, Or.inr rfl,
          rsplit_once_sound fdsFlag var pre post hf, hv.symm, ?_, ?_⟩
        · rw [← hv]
          exact (takeWhile_space_spec post).1
        · rw [← hv]
          exact (takeWhile_space_spec post).2
      | none =>
        rw [hf] at hv
        exact absurd hv (by simp [Option.bind])
  · intro var _ hnauth hnfds
    have ha : rsplit_once authFlag var = none :=
      rsplit_once_none_of_not_occurs authFlag hnauth
    have hf : rsplit_once fdsFlag var = none :=
      rsplit_once_none_of_not_occurs fdsFlag hnfds
    simp [find_jobserver_auth, ha, hf, Option.bind]

theorem find_jobserver_auth_value_extent_witness :
    find_jobserver_auth (authFlag ++ [Char.ofNat 98]) = some [Char.ofNat 98] ∧
      ∃ flag pre post, (flag = authFlag ∨ flag = fdsFlag) ∧
        authFlag ++ [Char.ofNat 98] = pre ++ flag ++ post ∧
        [Char.ofNat 98] = post.takeWhile (fun c => c != ' ') ∧
        (∀ c ∈ [Char.ofNat 98], c ≠ ' ') ∧
        (post = [Char.ofNat 98] ∨ ∃ rest, post = [Char.ofNat 98] ++ ' ' :: rest) :=
  ⟨by decide,
    find_jobserver_auth_value_extent.1 (authFlag ++ [Char.ofNat 98])
      [Char.ofNat 98] (by decide)⟩

/-- C9 counterexample: on the input the claim designates,
`"--no-jobserver-auth=v"`, the function returns `none` — not the value
`"v"` — because the flag string `--jobserver-auth=` (with its two leading
dashes) does not occur in that input at all: only a single dash precedes
`jobserver-auth=` there. -/
theorem find_jobserver_auth_embedded_counterexample :
    find_jobserver_auth (("--no-jobserver-auth=v").data) = none ∧
      ¬ occursIn authFlag (("--no-jobserver-auth=v").data) :=
  ⟨by decide, rsplit_once_none authFlag (by decide)
    (("--no-jobserver-auth=v").data) (by decide)⟩

/-- C9 (amended): `find_jobserver_auth` matches the flag text as a raw
substring with no token-boundary requirement: in the single space-free
token `"--my--jobserver-auth=v"` the flag `--jobserver-auth=` occurs
strictly inside the token (after the non-empty text `--my`), and the
function returns the value `"v"` following that embedded occurrence. -/
theorem find_jobserver_auth_embedded_substring :
    find_jobserver_auth (("--my--jobserver-auth=v").data) = some [Char.ofNat 118] ∧
      ("--my--jobserver-auth=v").data = ("--my").data ++ authFlag ++ [Char.ofNat 118] ∧
      ("--my").data ≠ [] ∧
      (∀ c ∈ ("--my--jobserver-auth=v").data, c ≠ ' ') :=
  ⟨by decide, by decide, by decide, by decide⟩

/-- The eighteen vectors of the source's `test_find_jobserver_auth`,
checked against the embedding. -/
theorem find_jobserver_auth_test_vectors :
    find_jobserver_auth [] = none ∧
    find_jobserver_auth (("-j2").data) = none ∧
    find_jobserver_auth (("-j2 --jobserver-auth=3,4").data) = some (("3,4").data) ∧
    find_jobserver_auth (("--jobserver-auth=3,4 -j2").data) = some (("3,4").data) ∧
    find_jobserver_auth (("--jobserver-auth=3,4").data) = some (("3,4").data) ∧
    find_jobserver_auth (("--jobserver-auth=fifo:/myfifo").data) =
      some (("fifo:/myfifo").data) ∧
    find_jobserver_auth (("--jobserver-auth=").data) = some [] ∧
    find_jobserver_auth (("--jobserver-auth").data) = none ∧
    find_jobserver_auth (("--jobserver-fds=3,4").data) = some (("3,4").data) ∧
    find_jobserver_auth (("--jobserver-fds=fifo:/myfifo").data) =
      some (("fifo:/myfifo").data) ∧
    find_jobserver_auth (("--jobserver-fds=").data) = some [] ∧
    find_jobserver_auth (("--jobserver-fds").data) = none ∧
    find_jobserver_auth (("--jobserver-auth=auth-a --jobserver-auth=auth-b").data) =
      some (("auth-b").data) ∧
    find_jobserver_auth (("--jobserver-auth=auth-b --jobserver-auth=auth-a").data) =
      some (("auth-a").data) ∧
    find_jobserver_auth (("--jobserver-fds=fds-a --jobserver-fds=fds-b").data) =
      some (("fds-b").data) ∧
    find_jobserver_auth (("--jobserver-fds=fds-b --jobserver-fds=fds-a").data) =
      some (("fds-a").data) ∧
    find_jobserver_auth
        (("--jobserver-auth=auth-a --jobserver-fds=fds-a --jobserver-auth=auth-b").data) =
      some (("auth-b").data) ∧
    find_jobserver_auth
        (("--jobserver-fds=fds-a --jobserver-auth=auth-a --jobserver-fds=fds-b").data) =
      some (("auth-a").data) := by
  decide

/-- C3: for a token built by `acquire` or `try_acquire` (both set
`disabled: false`), dropping it performs exactly one engine release,
carrying the token's payload; if `drop_without_releasing` was called
first (setting `disabled`), dropping performs zero releases.  This holds
for every behaviour of the engine's release operation. -/
theorem acquired_drop_release_count (rel : Option Nat → Except IoErr Unit) (d : Nat) :
    (acquiredDrop rel (Acquired.ofAcquire d)).1 = [some d] ∧
    (acquiredDrop rel (Acquired.ofTryAcquire d)).1 = [some d] ∧
    (acquiredDrop rel (drop_without_releasing (Acquired.ofAcquire d))).1 = [] ∧
    (acquiredDrop rel (drop_without_releasing (Acquired.ofTryAcquire d))).1 = [] := by
  cases h : rel (some d) <;>
    simp [acquiredDrop, Acquired.ofAcquire, Acquired.ofTryAcquire,
      drop_without_releasing, h]

/-- C10: when an `Acquired` token is dropped, any error returned by the
engine's release operation is silently discarded — the caller of the drop
never observes an error (for any token, second conjunct: and even when
the release explicitly fails, the drop still performs its single release
call and surfaces nothing). -/
theorem acquired_drop_discards_error :
    (∀ (rel : Option Nat → Except IoErr Unit) (a : Acquired),
      (acquiredDrop rel a).2 = none) ∧
    (∀ (rel : Option Nat → Except IoErr Unit) (d : Nat) (e : IoErr),
      rel (some d) = Except.error e →
      acquiredDrop rel { data := d, disabled := false } = ([some d], none)) := by
  constructor
  · intro rel a
    cases hb : a.disabled <;> cases hr : rel (some a.data) <;>
      simp [acquiredDrop, hb, hr]
  · intro rel d e h
    simp [acquiredDrop, h]

theorem acquired_drop_discards_error_witness :
    (fun _ : Option Nat => (Except.error ⟨[]⟩ : Except IoErr Unit)) (some 0) =
      Except.error (⟨[]⟩ : IoErr) ∧
    acquiredDrop (fun _ => (Except.error ⟨[]⟩ : Except IoErr Unit))
        { data := 0, disabled := false } = ([some 0], none) :=
  ⟨rfl, acquired_drop_discards_error.2 (fun _ => Except.error ⟨[]⟩) 0 ⟨[]⟩ rfl⟩

/-- C6: `configure` sets the child's `CARGO_MAKEFLAGS` — and nothing
else — to exactly `"-j --jobserver-fds=<A> --jobserver-auth=<A>"` where
`<A>` is the engine's `string_arg()`; `configure_make` sets
`CARGO_MAKEFLAGS`, `MAKEFLAGS` and `MFLAGS`, all to that same string. -/
theorem configure_env_strings (arg : List Char) :
    mflags_env arg =
      ['-', 'j', ' ', '-', '-', 'j', 'o', 'b', 's', 'e', 'r', 'v', 'e', 'r',
        '-', 'f', 'd', 's', '='] ++ arg ++
      [' ', '-', '-', 'j', 'o', 'b', 's', 'e', 'r', 'v', 'e', 'r', '-', 'a',
        'u', 't', 'h', '='] ++ arg ∧
    configure_envs arg = [(cargoMakeflagsVar, mflags_env arg)] ∧
    (configure_envs arg).map Prod.fst = [cargoMakeflagsVar] ∧
    configure_make_envs arg =
      [(cargoMakeflagsVar, mflags_env arg), (makeflagsVar, mflags_env arg),
        (mflagsVar, mflags_env arg)] ∧
    (configure_make_envs arg).map Prod.fst =
      [cargoMakeflagsVar, makeflagsVar, mflagsVar] :=
  ⟨rfl, rfl, rfl, rfl, rfl⟩

/-- C7: the helper worker loop: while `producer_done` is false it waits
on the condition variable whenever `requests` is `0`; otherwise it
decrements `requests` under the lock and releases the lock before
invoking the acquisition callback, re-acquiring it afterwards; once
`producer_done` is observed true the loop exits, sets `consumer_done`,
and signals the condition variable.  `request_token` increments
`requests` under the same lock and signals the condition variable. -/
theorem helper_worker_loop_steps :
    (∀ i : HelperInner, i.producer_done = false → i.requests = 0 →
      for_each_request_step ⟨WorkerPC.loopHead, i, true⟩ =
        (⟨WorkerPC.loopHead, i, true⟩, WorkerAct.waited, false)) ∧
    (∀ i : HelperInner, i.producer_done = false → i.requests ≠ 0 →
      for_each_request_step ⟨WorkerPC.loopHead, i, true⟩ =
        (⟨WorkerPC.callback, { i with requests := i.requests - 1 }, false⟩,
          WorkerAct.invoked, false)) ∧
    (∀ i : HelperInner, for_each_request_step ⟨WorkerPC.callback, i, false⟩ =
      (⟨WorkerPC.loopHead, i, true⟩, WorkerAct.reacquired, false)) ∧
    (∀ i : HelperInner, i.producer_done = true →
      for_each_request_step ⟨WorkerPC.loopHead, i, true⟩ =
        (⟨WorkerPC.finished, { i with consumer_done := true }, true⟩,
          WorkerAct.exited, true)) ∧
    (∀ i : HelperInner, request_token i = ({ i with requests := i.requests + 1 }, true)) := by
  refine ⟨?_, ?_, fun i => rfl, ?_, fun i => rfl⟩
  · intro i h1 h2
    simp [for_each_request_step, h1, h2]
  · intro i h1 h2
    simp [for_each_request_step, h1, h2]
  · intro i h1
    simp [for_each_request_step, h1]

theorem helper_worker_loop_steps_witness :
    (⟨1, false, false⟩ : HelperInner).producer_done = false ∧
    (⟨1, false, false⟩ : HelperInner).requests ≠ 0 ∧
    for_each_request_step ⟨WorkerPC.loopHead, ⟨1, false, false⟩, true⟩ =
      (⟨WorkerPC.callback, ⟨0, false, false⟩, false⟩, WorkerAct.invoked, false) :=
  ⟨rfl, by decide, helper_worker_loop_steps.2.1 ⟨1, false, false⟩ rfl (by decide)⟩

theorem findFirstVar_eq_none_iff (env : String → Option OsString) :
    findFirstVar env = none ↔
      env cargoMakeflagsVar = none ∧ env makeflagsVar = none ∧ env mflagsVar = none := by
  cases hc : env cargoMakeflagsVar <;> cases hm : env makeflagsVar <;>
    cases hf : env mflagsVar <;>
      simp [findFirstVar, from_env_vars, List.findSome?, hc, hm, hf]

theorem findFirstVar_cargo {env : String → Option OsString} {v : OsString}
    (h : env cargoMakeflagsVar = some v) :
    findFirstVar env = some (cargoMakeflagsVar, v) := by
  simp [findFirstVar, from_env_vars, List.findSome?, h]

theorem findFirstVar_make {env : String → Option OsString} {v : OsString}
    (h1 : env cargoMakeflagsVar = none) (h2 : env makeflagsVar = some v) :
    findFirstVar env = some (makeflagsVar, v) := by
  simp [findFirstVar, from_env_vars, List.findSome?, h1, h2]

theorem findFirstVar_mflags {env : String → Option OsString} {v : OsString}
    (h1 : env cargoMakeflagsVar = none) (h2 : env makeflagsVar = none)
    (h3 : env mflagsVar = some v) :
    findFirstVar env = some (mflagsVar, v) := by
  simp [findFirstVar, from_env_vars, List.findSome?, h1, h2, h3]

theorem from_env_ext_congr {Imp : Type}
    (o : List Char → Bool → Except FromEnvErrorInner Imp) (cp : Bool)
    {env env' : String → Option OsString}
    (h : findFirstVar env = findFirstVar env') :
    from_env_ext o cp env = from_env_ext o cp env' := by
  unfold from_env_ext
  rw [h]

theorem from_env_ext_var_eq {Imp : Type}
    (o : List Char → Bool → Except FromEnvErrorInner Imp) (cp : Bool)
    {env : String → Option OsString} {name : String} {v : OsString}
    (h : findFirstVar env = some (name, v)) :
    (from_env_ext o cp env).var = some (name, v) := by
  cases hs : v.toStr with
  | none => simp [from_env_ext, h, hs, FromEnv.new_err]
  | some s =>
    cases hf : find_jobserver_auth s with
    | none => simp [from_env_ext, h, hs, hf, FromEnv.new_err]
    | some a =>
      cases hopen : o a cp with
      | ok c => simp [from_env_ext, h, hs, hf, hopen, FromEnv.new_ok]
      | error e => simp [from_env_ext, h, hs, hf, hopen, FromEnv.new_err]

/-- C4: `from_env_ext` inspects `CARGO_MAKEFLAGS`, `MAKEFLAGS`, `MFLAGS`
in that fixed order and consults only the first one present: when
`CARGO_MAKEFLAGS` is set, two environments agreeing on it give identical
results regardless of `MAKEFLAGS`/`MFLAGS`; when it is absent,
`MAKEFLAGS` likewise shadows `MFLAGS`; the reported variable (the `var`
field) is the first present one. -/
theorem from_env_ext_var_precedence {Imp : Type}
    (o : List Char → Bool → Except FromEnvErrorInner Imp) (cp : Bool) :
    (∀ (env env' : String → Option OsString) (v : OsString),
      env cargoMakeflagsVar = some v → env' cargoMakeflagsVar = some v →
      from_env_ext o cp env = from_env_ext o cp env') ∧
    (∀ (env env' : String → Option OsString) (v : OsString),
      env cargoMakeflagsVar = none → env' cargoMakeflagsVar = none →
      env makeflagsVar = some v → env' makeflagsVar = some v →
      from_env_ext o cp env = from_env_ext o cp env') ∧
    (∀ (env : String → Option OsString) (v : OsString),
      env cargoMakeflagsVar = some v →
      (from_env_ext o cp env).var = some (cargoMakeflagsVar, v)) ∧
    (∀ (env : String → Option OsString) (v : OsString),
      env cargoMakeflagsVar = none → env makeflagsVar = some v →
      (from_env_ext o cp env).var = some (makeflagsVar, v)) ∧
    (∀ (env : String → Option OsString) (v : OsString),
      env cargoMakeflagsVar = none → env makeflagsVar = none →
      env mflagsVar = some v →
      (from_env_ext o cp env).var = some (mflagsVar, v)) := by
  refine ⟨?_, ?_, ?_, ?_, ?_⟩
  · intro env env' v h1 h2
    exact from_env_ext_congr o cp ((findFirstVar_cargo h1).trans (findFirstVar_cargo h2).symm)
  · intro env env' v h1 h2 h3 h4
    exact from_env_ext_congr o cp
      ((findFirstVar_make h1 h3).trans (findFirstVar_make h2 h4).symm)
  · intro env v h1
    exact from_env_ext_var_eq o cp (findFirstVar_cargo h1)
  · intro env v h1 h2
    exact from_env_ext_var_eq o cp (findFirstVar_make h1 h2)
  · intro env v h1 h2 h3
    exact from_env_ext_var_eq o cp (findFirstVar_mflags h1 h2 h3)

theorem from_env_ext_var_precedence_witness :
    (fun _ : String => some OsString.empty) cargoMakeflagsVar = some OsString.empty ∧
    from_env_ext (fun _ _ => (Except.ok () : Except FromEnvErrorInner Unit)) true
        (fun _ => some OsString.empty) =
      from_env_ext (fun _ _ => Except.ok ()) true (fun _ => some OsString.empty) :=
  ⟨rfl, (from_env_ext_var_precedence (fun _ _ => Except.ok ()) true).1
    (fun _ => some OsString.empty) (fun _ => some OsString.empty) OsString.empty rfl rfl⟩

/-- C5: `from_env_ext` yields an error of kind `NoEnvVar` exactly when
none of the three recognized variables is present; `CannotParse` when the
chosen variable's value is not valid UTF-8; `NoJobserver` when the value
is UTF-8 but `find_jobserver_auth` finds nothing; and in each of these
error cases the engine open is never attempted — the result is the same
for every open function.  (The hypothesis `ho` records that the engine's
own open errors are of the open/parse kinds, never `NoEnvVar`.) -/
theorem from_env_ext_error_kinds {Imp : Type}
    (o o' : List Char → Bool → Except FromEnvErrorInner Imp)
    (ho : ∀ s c, o s c ≠ Except.error FromEnvErrorInner.NoEnvVar)
    (cp : Bool) (env : String → Option OsString) :
    ((env cargoMakeflagsVar = none ∧ env makeflagsVar = none ∧ env mflagsVar = none) ↔
      (from_env_ext o cp env).client = Except.error ⟨FromEnvErrorInner.NoEnvVar⟩) ∧
    ((env cargoMakeflagsVar = none ∧ env makeflagsVar = none ∧ env mflagsVar = none) →
      from_env_ext o cp env = from_env_ext o' cp env) ∧
    (∀ (name : String) (v : OsString),
      findFirstVar env = some (name, v) → v.toStr = none →
      (from_env_ext o cp env).client =
        Except.error ⟨FromEnvErrorInner.CannotParse (("not valid UTF-8").data)⟩ ∧
      from_env_ext o cp env = from_env_ext o' cp env) ∧
    (∀ (name : String) (v : OsString) (s : List Char),
      findFirstVar env = some (name, v) → v.toStr = some s →
      find_jobserver_auth s = none →
      (from_env_ext o cp env).client = Except.error ⟨FromEnvErrorInner.NoJobserver⟩ ∧
      from_env_ext o cp env = from_env_ext o' cp env) := by
  refine ⟨⟨?_, ?_⟩, ?_, ?_, ?_⟩
  · intro h
    have hfv : findFirstVar env = none := (findFirstVar_eq_none_iff env).mpr h
    simp [from_env_ext, hfv, FromEnv.new_err]
  · intro hc
    cases hfv : findFirstVar env with
    | none => exact (findFirstVar_eq_none_iff env).mp hfv
    | some nv =>
      obtain ⟨name, v⟩ := nv
      exfalso
      cases hs : v.toStr with
      | none => simp [from_env_ext, hfv, hs, FromEnv.new_err] at hc
      | some s =>
        cases hf : find_jobserver_auth s with
        | none => simp [from_env_ext, hfv, hs, hf, FromEnv.new_err] at hc
        | some a =>
          cases hopen : o a cp with
          | ok c => simp [from_env_ext, hfv, hs, hf, hopen, FromEnv.new_ok] at hc
          | error e =>
            simp only [from_env_ext, hfv, hs, hf, hopen, FromEnv.new_err,
              Except.error.injEq, FromEnvError.mk.injEq] at hc
            exact ho a cp (hopen.trans (by rw [hc]))
  · intro h
    have hfv : findFirstVar env = none := (findFirstVar_eq_none_iff env).mpr h
    simp [from_env_ext, hfv]
  · intro name v hfv hs
    constructor
    · simp [from_env_ext, hfv, hs, FromEnv.new_err]
    · simp [from_env_ext, hfv, hs]
  · intro name v s hfv hs hf
    constructor
    · simp [from_env_ext, hfv, hs, hf, FromEnv.new_err]
    · simp [from_env_ext, hfv, hs, hf]

theorem from_env_ext_error_kinds_witness :
    ((fun _ : String => (none : Option OsString)) cargoMakeflagsVar = none ∧
      (fun _ : String => (none : Option OsString)) makeflagsVar = none ∧
      (fun _ : String => (none : Option OsString)) mflagsVar = none) ∧
    (from_env_ext (fun _ _ => (Except.ok () : Except FromEnvErrorInner Unit)) false
        (fun _ => none)).client = Except.error ⟨FromEnvErrorInner.NoEnvVar⟩ :=
  ⟨⟨rfl, rfl, rfl⟩,
    ((from_env_ext_error_kinds (fun _ _ => Except.ok ()) (fun _ _ => Except.ok ())
      (fun _ _ h => Except.noConfusion h) false (fun _ => none)).1).mp ⟨rfl, rfl, rfl⟩⟩

/-- C8: when no recognized variable is present, the returned `FromEnv`
has `var = some (("", OsString::default()))` — an empty variable name and
empty value — rather than `none`. -/
theorem from_env_ext_noenvvar_var_field {Imp : Type}
    (o : List Char → Bool → Except FromEnvErrorInner Imp) (cp : Bool)
    (env : String → Option OsString)
    (h1 : env cargoMakeflagsVar = none) (h2 : env makeflagsVar = none)
    (h3 : env mflagsVar = none) :
    (from_env_ext o cp env).var = some (("", OsString.empty)) ∧
      (from_env_ext o cp env).var ≠ none := by
  have hfv : findFirstVar env = none := (findFirstVar_eq_none_iff env).mpr ⟨h1, h2, h3⟩
  constructor
  · simp [from_env_ext, hfv, FromEnv.new_err]
  · simp [from_env_ext, hfv, FromEnv.new_err]

theorem from_env_ext_noenvvar_var_field_witness :
    (fun _ : String => (none : Option OsString)) cargoMakeflagsVar = none ∧
    ((from_env_ext (fun _ _ => (Except.ok () : Except FromEnvErrorInner Unit)) false
        (fun _ => none)).var = some (("", OsString.empty)) ∧
      (from_env_ext (fun _ _ => (Except.ok () : Except FromEnvErrorInner Unit)) false
        (fun _ => none)).var ≠ none) :=
  ⟨rfl, from_env_ext_noenvvar_var_field (fun _ _ => Except.ok ()) false
    (fun _ => none) rfl rfl rfl⟩
